import Mathlib

/-
  Verification of the Chessdle puzzle-validation core: the move codec
  (UCI and SAN parsing), the per-move feedback computation, the attempt
  scorer, the session state machine, and the FEN turn-correction step.
  The chess rules themselves (chess.js) are an external collaborator and
  are modelled as an abstract RulesEngine record of functions.
-/

namespace Chessdle

/-- Per-move feedback value: green = correct, yellow = partial, red = incorrect. -/
inductive Verdict
  | green
  | yellow
  | red
deriving DecidableEq

/-- The session status values of the application state machine. -/
inductive GameState
  | loading
  | playing
  | won
  | lost
  | error
deriving DecidableEq

/-- A board position, serialized as a FEN string. -/
abbrev Fen := String

/-- The record produced by parseUci: from-square, to-square, optional promotion
letter, mirroring the object literal returned by the source. -/
structure MoveArg where
  fromSq : String
  toSq : String
  promotion : Option Char
deriving DecidableEq

/-- The move descriptor returned by the rules engine (chess.js moveDetails):
piece, from, to, canonical SAN, color, optional promotion letter. -/
structure MoveDetails where
  piece : Char
  fromSq : String
  toSq : String
  san : String
  color : Char
  promotion : Option Char
deriving DecidableEq

/-- The external Rules Engine (chess.js), abstracted: applying a coordinate
move object to a position, applying a SAN string to a position (each returns
the move descriptor and the resulting position, or none when the move is
illegal, malformed, or the engine throws), and position-string validation
(the Chess constructor succeeding). -/
structure RulesEngine where
  moveObj : Fen → MoveArg → Option (MoveDetails × Fen)
  moveSan : Fen → String → Option (MoveDetails × Fen)
  validFen : Fen → Bool

/-- Lower-case file letter a..h, as tested by the validSquare regex. -/
def isFileChar (c : Char) : Bool := 'a' ≤ c && c ≤ 'h'

/-- Rank digit 1..8, as tested by the validSquare regex. -/
def isRankChar (c : Char) : Bool := '1' ≤ c && c ≤ '8'

/-- The validSquare regex of parseUci: exactly a lower-case file then a rank. -/
def isValidSquare (s : String) : Bool :=
  match s.toList with
  | [f, r] => isFileChar f && isRankChar r
  | _ => false

/-- A legal promotion letter q, r, b or n (the parseUci promotion regex). -/
def isPromoChar (c : Char) : Bool := c = 'q' || c = 'r' || c = 'b' || c = 'n'

/-- parseUci: a UCI string is 4 or 5 characters, two valid squares and an
optional promotion letter (lower-cased before the check); otherwise none. -/
def parseUci (uci : String) : Option MoveArg :=
  match uci.toList with
  | [a, b, c, d] =>
    let f := String.mk [a, b]
    let t := String.mk [c, d]
    if isValidSquare f && isValidSquare t then some { fromSq := f, toSq := t, promotion := none }
    else none
  | [a, b, c, d, p] =>
    let f := String.mk [a, b]
    let t := String.mk [c, d]
    let pl := p.toLower
    if isValidSquare f && isValidSquare t && isPromoChar pl then
      some { fromSq := f, toSq := t, promotion := some pl }
    else none
  | _ => none

/-- parseSanMove: delegate the SAN string to the rules engine against the given
position; on success project the engine's move descriptor, on failure (illegal
move, malformed notation, or an engine exception) return none. -/
def parseSanMove (E : RulesEngine) (fenBeforeMove : Fen) (san : String) : Option MoveDetails :=
  match E.moveSan fenBeforeMove san with
  | none => none
  | some (moveDetails, _) =>
    some { piece := moveDetails.piece, fromSq := moveDetails.fromSq, toSq := moveDetails.toSq,
           san := moveDetails.san, color := moveDetails.color,
           promotion := moveDetails.promotion }

/-- Case-insensitive file letter, as matched by the [a-h] class under the
regex i-flag of the destination-extraction heuristic. -/
def isFileCharCI (c : Char) : Bool :=
  ('a' ≤ c && c ≤ 'h') || ('A' ≤ c && c ≤ 'H')

/-- Case-insensitive promotion letter, the [qrbn] class under the i-flag. -/
def isPromoCharCI (c : Char) : Bool :=
  c = 'q' || c = 'r' || c = 'b' || c = 'n' || c = 'Q' || c = 'R' || c = 'B' || c = 'N'

/-- A trailing check or mate decoration character. -/
def isCheckChar (c : Char) : Bool := c = '+' || c = '#'

/-- After the captured square, the regex tail =?([qrbn])?[+#]?$ must consume
the rest of the string: an optional equals sign, an optional promotion letter,
an optional check or mate sign, then end of input. The three character classes
are disjoint and each optional piece is a single character, so the greedy
left-to-right reading below coincides with regex backtracking. -/
def sanTailMatches (rest : List Char) : Bool :=
  let r1 := match rest with
    | '=' :: t => t
    | _ => rest
  let r2 := match r1 with
    | c :: t => if isPromoCharCI c then t else r1
    | [] => r1
  let r3 := match r2 with
    | c :: t => if isCheckChar c then t else r2
    | [] => r2
  r3.isEmpty

/-- Scan for the leftmost position where ([a-h][1-8])=?([qrbn])?[+#]?$ matches
(the JS match of a non-global regex), returning the captured square verbatim. -/
def extractAux : List Char → Option String
  | [] => none
  | f :: rest =>
    match rest with
    | [] => none
    | r :: tail =>
      if isFileCharCI f && isRankChar r && sanTailMatches tail then some (String.mk [f, r])
      else extractAux rest

/-- The best-effort destination heuristic of handleSubmit: the trailing square
token of a SAN string, ignoring trailing promotion and check decorations. -/
def extractIntendedDestination (san : String) : Option String :=
  extractAux san.toList

/-- JS truthiness of an optional string: an absent entry and the empty string
are both falsy. -/
def truthyString : Option String → Option String
  | some s => if s = "" then none else some s
  | none => none

/-- The per-index feedback block of handleSubmit: green on exact from/to/
promotion match (an absent promotion only equals an absent one), yellow when
exactly one of the from- and to-squares matches, and, when the user SAN exists
but failed to parse while the solution move parsed, yellow exactly when the
extracted intended destination equals the solution's to-square; red otherwise. -/
def computeFeedback (userMoveObject : Option MoveDetails) (userSan : Option String)
    (solutionMoveObject : Option MoveArg) : Verdict :=
  match userMoveObject, solutionMoveObject with
  | some u, some sm =>
    if u.fromSq = sm.fromSq ∧ u.toSq = sm.toSq ∧ u.promotion = sm.promotion then
      Verdict.green
    else
      if (u.fromSq = sm.fromSq ∨ u.toSq = sm.toSq) ∧
          ¬(u.fromSq = sm.fromSq ∧ u.toSq = sm.toSq) then
        Verdict.yellow
      else
        Verdict.red
  | none, some sm =>
    match userSan with
    | some sanText =>
      match extractIntendedDestination sanText with
      | some dest => if dest = sm.toSq then Verdict.yellow else Verdict.red
      | none => Verdict.red
    | none => Verdict.red
  | _, _ => Verdict.red

/-- The outcome of one scoring pass: the verdict list with the all-correct
flag, or the fatal internal error raised on a malformed solution entry. -/
inductive ScoreResult
  | ok (feedback : List Verdict) (allCorrect : Bool)
  | fatal
deriving DecidableEq

/-- The step-by-step comparison loop of handleSubmit. The first Nat argument
is the number of remaining indices, the second the current index i; the Fen is
the validation position before index i. Each step computes the verdict, then
advances the validation position with the solution's own move: if that move is
illegal the just-pushed verdict is overwritten with red and scoring stops; a
solution entry that fails UCI parsing at an index inside the solution is the
fatal internal-error case. -/
def scoreAux (E : RulesEngine) (input solution : List String) :
    Nat → Nat → Fen → List Verdict → Bool → ScoreResult
  | 0, _, _, feedbackResults, allCorrect => ScoreResult.ok feedbackResults allCorrect
  | k + 1, i, fen, feedbackResults, allCorrect =>
    let userSan := truthyString (input.get? i)
    let solutionUci := truthyString (solution.get? i)
    let userMoveObject := userSan.bind (parseSanMove E fen)
    let solutionMoveObject := solutionUci.bind parseUci
    let result := computeFeedback userMoveObject userSan solutionMoveObject
    match solutionUci, solutionMoveObject with
    | some _, some sm =>
      match E.moveObj fen sm with
      | some (_, newFen) =>
        scoreAux E input solution k (i + 1) newFen (feedbackResults ++ [result])
          (allCorrect && decide (result = Verdict.green))
      | none => ScoreResult.ok (feedbackResults ++ [Verdict.red]) false
    | _, _ =>
      if i < solution.length then ScoreResult.fatal
      else
        scoreAux E input solution k (i + 1) fen (feedbackResults ++ [result])
          (allCorrect && decide (result = Verdict.green))

/-- The full scoring pass of handleSubmit: run the comparison loop over
max(len input, len solution) indices from the puzzle's initial position, then
mark any extra user moves red (the trailing while loop). -/
def score (E : RulesEngine) (userMoveSequence solutionMovesUci : List String)
    (initialFen : Fen) : ScoreResult :=
  match scoreAux E userMoveSequence solutionMovesUci
      (max userMoveSequence.length solutionMovesUci.length) 0 initialFen [] true with
  | ScoreResult.fatal => ScoreResult.fatal
  | ScoreResult.ok feedbackResults allCorrect =>
    if feedbackResults.length < userMoveSequence.length then
      ScoreResult.ok
        (feedbackResults ++
          List.replicate (userMoveSequence.length - feedbackResults.length) Verdict.red)
        false
    else ScoreResult.ok feedbackResults allCorrect

/-- The processed puzzle data held in state. -/
structure Puzzle where
  id : String
  initialFen : Fen
  solution : List String
deriving DecidableEq

/-- One submitted attempt: the user's SAN sequence and its feedback. -/
structure AttemptRecord where
  sequence : List String
  feedback : List Verdict
deriving DecidableEq

/-- The application state touched by the submit, reset and drop handlers. -/
structure SessionState where
  puzzle : Option Puzzle
  currentFen : Fen
  userMoveSequence : List String
  attemptsHistory : List AttemptRecord
  currentAttemptNumber : Nat
  gameState : GameState
deriving DecidableEq

/-- The attempt limit constant. -/
def MAX_ATTEMPTS : Nat := 5

/-- The state reached right after a successful puzzle fetch. -/
def initSession (p : Puzzle) : SessionState :=
  { puzzle := some p, currentFen := p.initialFen, userMoveSequence := [],
    attemptsHistory := [], currentAttemptNumber := 1, gameState := GameState.playing }

/-- handleSubmit: guarded to the playing state with a non-empty input; an
unusable initial position or a fatal scoring result moves the session to the
error state without touching the history; otherwise the attempt record is
appended and the state transitions to won, lost, or the next attempt. -/
def handleSubmit (E : RulesEngine) (s : SessionState) : SessionState :=
  match s.puzzle with
  | none => s
  | some puzzle =>
    if s.userMoveSequence = [] ∨ s.gameState ≠ GameState.playing then s
    else if puzzle.initialFen = "" ∨ E.validFen puzzle.initialFen = false then
      { s with gameState := GameState.error }
    else
      match score E s.userMoveSequence puzzle.solution puzzle.initialFen with
      | ScoreResult.fatal => { s with gameState := GameState.error }
      | ScoreResult.ok feedbackResults allCorrect =>
        let newAttempt : AttemptRecord :=
          { sequence := s.userMoveSequence, feedback := feedbackResults }
        let s1 := { s with attemptsHistory := s.attemptsHistory ++ [newAttempt] }
        if allCorrect = true ∧ s.userMoveSequence.length = puzzle.solution.length then
          { s1 with gameState := GameState.won }
        else if MAX_ATTEMPTS ≤ s.currentAttemptNumber then
          { s1 with gameState := GameState.lost }
        else
          { s1 with gameState := GameState.playing,
                    currentAttemptNumber := s.currentAttemptNumber + 1,
                    userMoveSequence := [],
                    currentFen := puzzle.initialFen }

/-- handleResetInput: in the playing state, clear the current input and reset
the displayed position; otherwise do nothing. -/
def handleResetInput (s : SessionState) : SessionState :=
  match s.puzzle with
  | none => s
  | some puzzle =>
    if s.gameState ≠ GameState.playing then s
    else { s with currentFen := puzzle.initialFen, userMoveSequence := [] }

/-- onDrop: in the playing state, apply the dragged move to the displayed
position with promotion hard-coded to queen; on success record the engine's
canonical SAN and the new position, otherwise change nothing. -/
def onDrop (E : RulesEngine) (s : SessionState) (sourceSquare targetSquare : String) :
    SessionState :=
  if s.gameState ≠ GameState.playing ∨ s.puzzle = none then s
  else
    let dropArg : MoveArg := { fromSq := sourceSquare, toSq := targetSquare, promotion := some 'q' }
    match E.moveObj s.currentFen dropArg with
    | none => s
    | some (moveResult, newFen) =>
      { s with currentFen := newFen,
               userMoveSequence := s.userMoveSequence ++ [moveResult.san] }

/-- JS String.prototype.split on a single space: each space ends a field,
empty fields are kept, the empty string yields one empty field. -/
def splitSpaceAux : List Char → List Char → List String
  | [], acc => [String.mk acc.reverse]
  | c :: rest, acc =>
    if c = ' ' then String.mk acc.reverse :: splitSpaceAux rest []
    else splitSpaceAux rest (c :: acc)

/-- The fenParts of the turn-correction step: baseFen.split(" "). -/
def splitSpace (s : String) : List String := splitSpaceAux s.toList []

/-- JS Array.prototype.join(" "): the fields rejoined with single spaces. -/
def joinSpace : List String → String
  | [] => ""
  | [s] => s
  | s :: rest => s ++ " " ++ joinSpace rest

/-- The flipped-turn FEN built in the turn-correction step: split on spaces,
replace the second field by the opposite side letter, and rejoin. -/
def flippedFenOf (baseFen : Fen) : Fen :=
  let fenParts := splitSpace baseFen
  let currentTurn := fenParts.getD 1 ""
  let newTurn := if currentTurn = "w" then "b" else "w"
  joinSpace (fenParts.set 1 newTurn)

/-- The turn-correction step of fetchDailyPuzzle: probe the decoded first
solution move against the candidate position; on failure flip the side-to-move
field and retry; adopt the flipped position only when the retry succeeds. -/
def correctFenTurn (E : RulesEngine) (baseFen : Fen) (parsedFirstMove : MoveArg) : Fen :=
  match E.moveObj baseFen parsedFirstMove with
  | some _ => baseFen
  | none =>
    if 2 ≤ (splitSpace baseFen).length then
      match E.moveObj (flippedFenOf baseFen) parsedFirstMove with
      | some _ => flippedFenOf baseFen
      | none => baseFen
    else baseFen

/-- The invariant of the session state machine: while playing, the history
holds one record per finished attempt, and the attempt counter never exceeds
the limit. -/
def SessionInv (s : SessionState) : Prop :=
  (s.gameState = GameState.playing → s.attemptsHistory.length + 1 = s.currentAttemptNumber) ∧
  s.currentAttemptNumber ≤ MAX_ATTEMPTS

/-
  Concrete engines and states used as evaluation witnesses.
-/

/-- An engine that rejects every move: every SAN fails to parse and every
coordinate move is illegal. -/
def stubEngine : RulesEngine :=
  { moveObj := fun _ _ => none, moveSan := fun _ _ => none, validFen := fun _ => true }

/-- A one-move demo descriptor: the pawn move e2-e4. -/
def demoDetails : MoveDetails :=
  { piece := 'p', fromSq := "e2", toSq := "e4", san := "e4", color := 'w', promotion := none }

/-- An engine on which the demo move always succeeds, leaving the position
unchanged, and whose SAN parser accepts exactly the demo SAN. -/
def demoEngine : RulesEngine :=
  { moveObj := fun fen _ => some (demoDetails, fen),
    moveSan := fun fen san => if san = "e4" then some (demoDetails, fen) else none,
    validFen := fun _ => true }

/-- An engine that accepts a move only from the flipped demo position. -/
def flipEngine : RulesEngine :=
  { moveObj := fun fen _ => if fen = "k7/8 b - - 0 1" then some (demoDetails, fen) else none,
    moveSan := fun _ _ => none, validFen := fun _ => true }

/-- An engine that fails exactly the queen-promotion move objects, so that it
agrees with stubEngine on every argument onDrop can ever produce. -/
def underPromoEngine : RulesEngine :=
  { moveObj := fun fen arg => if arg.promotion = some 'q' then none else some (demoDetails, fen),
    moveSan := fun _ _ => none, validFen := fun _ => true }

/-- A demo puzzle whose solution is the single move e2e4. -/
def demoPuzzle : Puzzle := { id := "p1", initialFen := "fen0", solution := ["e2e4"] }

/-- A fresh playing state for the demo puzzle with the matching input entered. -/
def demoState : SessionState :=
  { puzzle := some demoPuzzle, currentFen := "fen0", userMoveSequence := ["e4"],
    attemptsHistory := [], currentAttemptNumber := 1, gameState := GameState.playing }

/-- A puzzle whose solution move is well-formed UCI but illegal on stubEngine. -/
def demoBreakPuzzle : Puzzle := { id := "p2", initialFen := "start3", solution := ["a2a3"] }

/-- A playing state for the break-demo puzzle, first attempt. -/
def demoBreakState : SessionState :=
  { puzzle := some demoBreakPuzzle, currentFen := "start3", userMoveSequence := ["e4"],
    attemptsHistory := [], currentAttemptNumber := 1, gameState := GameState.playing }

/-- A puzzle whose solution entry is malformed UCI. -/
def demoFatalPuzzle : Puzzle := { id := "p3", initialFen := "start4", solution := ["zz9x"] }

/-- A playing state for the malformed-solution puzzle. -/
def demoFatalState : SessionState :=
  { puzzle := some demoFatalPuzzle, currentFen := "start4", userMoveSequence := ["e4"],
    attemptsHistory := [], currentAttemptNumber := 1, gameState := GameState.playing }

/-- A finished, won session state. -/
def wonDemoState : SessionState :=
  { puzzle := some demoPuzzle, currentFen := "fen0", userMoveSequence := [],
    attemptsHistory := [{ sequence := ["e4"], feedback := [Verdict.green] }],
    currentAttemptNumber := 1, gameState := GameState.won }

/-- A playing state sitting on the final allowed attempt. -/
def exhaustDemoState : SessionState :=
  { puzzle := some demoBreakPuzzle, currentFen := "start3", userMoveSequence := ["e4"],
    attemptsHistory := [], currentAttemptNumber := 5, gameState := GameState.playing }

/-
  Helper lemmas about the scoring loop.
-/

/-- The allCorrect accumulator of the scoring loop agrees with all verdicts
pushed so far being green, and the loop preserves that agreement. -/
theorem scoreAux_allCorrect_invariant (E : RulesEngine) (input solution : List String) :
    ∀ (k i : Nat) (fen : Fen) (fb : List Verdict) (ac : Bool) (fb2 : List Verdict) (ac2 : Bool),
      (ac = true ↔ ∀ v ∈ fb, v = Verdict.green) →
      scoreAux E input solution k i fen fb ac = ScoreResult.ok fb2 ac2 →
      (ac2 = true ↔ ∀ v ∈ fb2, v = Verdict.green) := by
  intro k
  induction k with
  | zero =>
    intro i fen fb ac fb2 ac2 hP h
    simp only [scoreAux] at h
    cases h
    exact hP
  | succ k ih =>
    intro i fen fb ac fb2 ac2 hP h
    rw [scoreAux] at h
    have hstep : ∀ result : Verdict,
        ((ac && decide (result = Verdict.green)) = true ↔
          ∀ v ∈ fb ++ [result], v = Verdict.green) := by
      intro result
      simp only [Bool.and_eq_true, decide_eq_true_eq, List.forall_mem_append,
        List.forall_mem_singleton, hP]
    split at h
    next u sm hu hsm =>
      split at h
      next r newFen hmove =>
        exact ih (i + 1) newFen _ _ fb2 ac2 (hstep _) h
      next hmove =>
        cases h
        constructor
        · intro hfalse; cases hfalse
        · intro hall
          have := hall Verdict.red (by simp)
          cases this
    next hother =>
      split at h
      next hlt => cases h
      next hge =>
        exact ih (i + 1) fen _ _ fb2 ac2 (hstep _) h

/-- A non-fatal scoring pass returns allCorrect exactly when every produced
verdict is green: the trailing red padding always clears the flag. -/
theorem score_allCorrect_iff (E : RulesEngine) (input solution : List String) (fen : Fen)
    (fb : List Verdict) (ac : Bool)
    (h : score E input solution fen = ScoreResult.ok fb ac) :
    (ac = true ↔ ∀ v ∈ fb, v = Verdict.green) := by
  unfold score at h
  cases hs : scoreAux E input solution (max input.length solution.length) 0 fen [] true with
  | fatal => rw [hs] at h; cases h
  | ok fb0 ac0 =>
    rw [hs] at h
    dsimp only at h
    have hP := scoreAux_allCorrect_invariant E input solution _ 0 fen [] true fb0 ac0
      (by simp) hs
    by_cases hlen : fb0.length < input.length
    · rw [if_pos hlen] at h
      cases h
      constructor
      · intro hfalse; cases hfalse
      · intro hall
        have hmem : Verdict.red ∈ fb0 ++ List.replicate (input.length - fb0.length) Verdict.red := by
          refine List.mem_append_right _ ?_
          rw [List.mem_replicate]
          exact ⟨by omega, rfl⟩
        have := hall Verdict.red hmem
        cases this
    · rw [if_neg hlen] at h
      cases h
      exact hP

/-- When the user move failed to parse but the solution move parsed, the
verdict is decided entirely by the destination-extraction heuristic. -/
theorem computeFeedback_noparse (userSan : Option String) (sm : MoveArg) :
    computeFeedback none userSan (some sm) =
      (match userSan with
       | some sanText =>
         if extractIntendedDestination sanText = some sm.toSq then Verdict.yellow
         else Verdict.red
       | none => Verdict.red) := by
  cases userSan with
  | none => rfl
  | some sanText =>
    simp only [computeFeedback]
    cases hx : extractIntendedDestination sanText with
    | none => simp
    | some dest =>
      by_cases hd : dest = sm.toSq
      · subst hd; simp
      · dsimp only
        rw [if_neg hd, if_neg (by simpa using hd)]

/-- Two user notations that both fail contextual parsing everywhere and share
the same extracted destination receive the same verdict at any index. -/
theorem feedback_failed_parse_eq (E : RulesEngine) (fen : Fen) (sa sb : String)
    (ha : ∀ f, E.moveSan f sa = none) (hb : ∀ f, E.moveSan f sb = none)
    (hx : extractIntendedDestination sa = extractIntendedDestination sb)
    (smo : Option MoveArg) :
    computeFeedback ((truthyString (some sa)).bind (parseSanMove E fen))
        (truthyString (some sa)) smo =
      computeFeedback ((truthyString (some sb)).bind (parseSanMove E fen))
        (truthyString (some sb)) smo := by
  have hpa : ∀ s : String, (∀ f, E.moveSan f s = none) →
      (truthyString (some s)).bind (parseSanMove E fen) = none := by
    intro s hs
    simp only [truthyString]
    by_cases he : s = ""
    · rw [if_pos he]; rfl
    · rw [if_neg he]
      show parseSanMove E fen s = none
      unfold parseSanMove
      rw [hs fen]
  rw [hpa sa ha, hpa sb hb]
  cases smo with
  | none =>
    simp only [truthyString]
    by_cases hea : sa = "" <;> by_cases heb : sb = "" <;>
      simp [hea, heb, computeFeedback]
  | some sm =>
    rw [computeFeedback_noparse, computeFeedback_noparse]
    simp only [truthyString]
    by_cases hea : sa = "" <;> by_cases heb : sb = ""
    · rw [if_pos hea, if_pos heb]
    · rw [if_pos hea, if_neg heb]
      dsimp only
      have : extractIntendedDestination sb = none := by
        rw [← hx, hea]; rfl
      rw [this]
      simp
    · rw [if_neg hea, if_pos heb]
      dsimp only
      have : extractIntendedDestination sa = none := by
        rw [hx, heb]; rfl
      rw [this]
      simp
    · rw [if_neg hea, if_neg heb]
      dsimp only
      rw [hx]

/-- Replacing an everywhere-unparseable input entry by another one with the
same extracted destination changes nothing in the scoring loop: in particular
the validation position is never advanced by the player's text. -/
theorem scoreAux_input_subst (E : RulesEngine) (solution : List String)
    (input : List String) (i0 : Nat) (san1 san2 : String)
    (hget : input.get? i0 = some san1)
    (hs1 : ∀ f, E.moveSan f san1 = none)
    (hs2 : ∀ f, E.moveSan f san2 = none)
    (hx : extractIntendedDestination san1 = extractIntendedDestination san2) :
    ∀ (k i : Nat) (fen : Fen) (fb : List Verdict) (ac : Bool),
      scoreAux E (input.set i0 san2) solution k i fen fb ac =
        scoreAux E input solution k i fen fb ac := by
  intro k
  induction k with
  | zero => intro i fen fb ac; rfl
  | succ k ih =>
    intro i fen fb ac
    rw [scoreAux, scoreAux]
    have husr : ∀ smo : Option MoveArg,
        computeFeedback ((truthyString ((input.set i0 san2).get? i)).bind (parseSanMove E fen))
            (truthyString ((input.set i0 san2).get? i)) smo =
          computeFeedback ((truthyString (input.get? i)).bind (parseSanMove E fen))
            (truthyString (input.get? i)) smo := by
      intro smo
      by_cases hi : i0 = i
      · subst hi
        have hset : (input.set i0 san2).get? i0 = some san2 := by
          rw [List.get?_set_eq]
          rw [hget]
          rfl
        rw [hset, hget]
        exact feedback_failed_parse_eq E fen san2 san1 hs2 hs1 hx.symm smo
      · rw [List.get?_set_ne _ _ hi]
    rw [husr ((truthyString (solution.get? i)).bind parseUci)]
    cases hsol : truthyString (solution.get? i) with
    | none =>
      dsimp only [Option.bind]
      by_cases hlt : i < solution.length
      · rw [if_pos hlt, if_pos hlt]
      · rw [if_neg hlt, if_neg hlt]
        exact ih (i + 1) fen (fb ++ [_]) _
    | some u =>
      dsimp only [Option.bind]
      cases hm : parseUci u with
      | none =>
        dsimp only
        by_cases hlt : i < solution.length
        · rw [if_pos hlt, if_pos hlt]
        · rw [if_neg hlt, if_neg hlt]
          exact ih (i + 1) fen (fb ++ [_]) _
      | some sm =>
        dsimp only
        cases hmv : E.moveObj fen sm with
        | none => rfl
        | some r =>
          cases r with
          | mk d newFen =>
            dsimp only
            exact ih (i + 1) newFen (fb ++ [_]) _

/-
  C1: the verdict computation when both moves parsed.
-/

/-- C1: when the player's move parses contextually and the solution move parses
in fixed notation, the verdict is correct exactly when from, to and promotion
all agree (an absent promotion equal only to an absent one); otherwise it is
partial exactly when exactly one of the from- and to-squares agrees; and it is
incorrect exactly otherwise. -/
theorem computeFeedback_green_yellow_iff (u : MoveDetails) (sm : MoveArg)
    (userSan : Option String) :
    (computeFeedback (some u) userSan (some sm) = Verdict.green ↔
      (u.fromSq = sm.fromSq ∧ u.toSq = sm.toSq ∧ u.promotion = sm.promotion)) ∧
    (computeFeedback (some u) userSan (some sm) = Verdict.yellow ↔
      (¬(u.fromSq = sm.fromSq ∧ u.toSq = sm.toSq ∧ u.promotion = sm.promotion) ∧
        ((u.fromSq = sm.fromSq ∧ ¬u.toSq = sm.toSq) ∨
          (u.toSq = sm.toSq ∧ ¬u.fromSq = sm.fromSq)))) ∧
    (computeFeedback (some u) userSan (some sm) = Verdict.red ↔
      (¬(u.fromSq = sm.fromSq ∧ u.toSq = sm.toSq ∧ u.promotion = sm.promotion) ∧
        ¬((u.fromSq = sm.fromSq ∧ ¬u.toSq = sm.toSq) ∨
          (u.toSq = sm.toSq ∧ ¬u.fromSq = sm.fromSq)))) := by
  simp only [computeFeedback]
  split_ifs with h1 h2 <;> refine ⟨?_, ?_, ?_⟩ <;>
    simp only [reduceCtorEq, false_iff, true_iff, iff_true, iff_false, not_and, not_or,
      not_not, not_forall] <;> tauto

/-
  C2: the overall win condition.
-/

/-- C2: when a submission scores without a fatal error, the session moves to
the won state exactly when every produced verdict is green and the attempt has
exactly the solution's length; a correct-but-shorter or correct-but-longer
sequence can never win. -/
theorem handleSubmit_won_iff (E : RulesEngine) (s : SessionState) (p : Puzzle)
    (fb : List Verdict) (ac : Bool)
    (hp : s.puzzle = some p)
    (hplay : s.gameState = GameState.playing)
    (hne : ¬s.userMoveSequence = [])
    (hfen : ¬(p.initialFen = "" ∨ E.validFen p.initialFen = false))
    (hsc : score E s.userMoveSequence p.solution p.initialFen = ScoreResult.ok fb ac) :
    ((handleSubmit E s).gameState = GameState.won ↔
      ((∀ v ∈ fb, v = Verdict.green) ∧
        s.userMoveSequence.length = p.solution.length)) := by
  have hiff := score_allCorrect_iff E s.userMoveSequence p.solution p.initialFen fb ac hsc
  have hguard : ¬(s.userMoveSequence = [] ∨ s.gameState ≠ GameState.playing) := by
    push_neg
    exact ⟨hne, hplay⟩
  unfold handleSubmit
  rw [hp]
  dsimp only
  rw [if_neg hguard, if_neg hfen, hsc]
  dsimp only
  by_cases hwin : ac = true ∧ s.userMoveSequence.length = p.solution.length
  · rw [if_pos hwin]
    simp only [true_iff]
    exact ⟨hiff.mp hwin.1, hwin.2⟩
  · rw [if_neg hwin]
    by_cases hmax : MAX_ATTEMPTS ≤ s.currentAttemptNumber
    · rw [if_pos hmax]
      simp only [reduceCtorEq, false_iff]
      intro hc
      exact hwin ⟨hiff.mpr hc.1, hc.2⟩
    · rw [if_neg hmax]
      simp only [reduceCtorEq, false_iff]
      intro hc
      exact hwin ⟨hiff.mpr hc.1, hc.2⟩

/-- C2 witness: submitting the exact one-move solution on the demo engine wins. -/
theorem handleSubmit_won_iff_witness :
    (handleSubmit demoEngine demoState).gameState = GameState.won ↔
      ((∀ v ∈ [Verdict.green], v = Verdict.green) ∧
        List.length (["e4"] : List String) = List.length (["e2e4"] : List String)) :=
  handleSubmit_won_iff demoEngine demoState demoPuzzle [Verdict.green] true rfl rfl
    (by decide) (by decide) (by decide)

/-
  C3: the turn-correction step.
-/

/-- C3: applying the decoded first solution move to the candidate position
decides the turn correction: on success the position is kept; on failure the
side-to-move field is flipped and the move retried, the flipped position being
adopted only when the retry succeeds; when both fail the original position is
kept and no further correction is attempted. -/
theorem correctFenTurn_cases (E : RulesEngine) (baseFen : Fen) (m : MoveArg)
    (hparts : 2 ≤ (splitSpace baseFen).length) :
    (∀ r, E.moveObj baseFen m = some r → correctFenTurn E baseFen m = baseFen) ∧
    (E.moveObj baseFen m = none →
      ((∀ r, E.moveObj (flippedFenOf baseFen) m = some r →
          correctFenTurn E baseFen m = flippedFenOf baseFen) ∧
        (E.moveObj (flippedFenOf baseFen) m = none →
          correctFenTurn E baseFen m = baseFen))) := by
  refine ⟨?_, ?_⟩
  · intro r hr
    unfold correctFenTurn
    rw [hr]
  · intro hnone
    refine ⟨?_, ?_⟩
    · intro r hr
      unfold correctFenTurn
      rw [hnone, if_pos hparts, hr]
    · intro hr
      unfold correctFenTurn
      rw [hnone, if_pos hparts, hr]

/-- C3 witness: on a concrete two-field position whose engine accepts the move
only after the flip, the corrected position is the flipped one. -/
theorem correctFenTurn_cases_witness :
    correctFenTurn flipEngine "k7/8 w - - 0 1"
        { fromSq := "a2", toSq := "a3", promotion := none } = "k7/8 b - - 0 1" := by
  have h := correctFenTurn_cases flipEngine "k7/8 w - - 0 1"
    { fromSq := "a2", toSq := "a3", promotion := none } (by decide)
  have h2 := (h.2 (by decide)).1 (demoDetails, "k7/8 b - - 0 1") (by decide)
  have h3 : flippedFenOf "k7/8 w - - 0 1" = "k7/8 b - - 0 1" := by decide
  rw [h3] at h2
  exact h2

/-
  C4: unparseable player notation is judged by extraction only.
-/

/-- C4: when the player's notation fails contextual parsing while the solution
move parsed, the verdict is partial exactly when the extracted trailing
destination equals the solution's to-square and incorrect otherwise; and the
extracted square is never used to advance the validation position: replacing
such an entry by any other unparseable entry with the same extraction leaves
the entire scoring result unchanged. -/
theorem illegal_input_scored_by_extraction (E : RulesEngine) :
    (∀ (userSanText : String) (sm : MoveArg),
      computeFeedback none (some userSanText) (some sm) =
        (if extractIntendedDestination userSanText = some sm.toSq then Verdict.yellow
         else Verdict.red)) ∧
    (∀ (input solution : List String) (initialFen : Fen) (i0 : Nat) (san1 san2 : String),
      input.get? i0 = some san1 →
      (∀ f, E.moveSan f san1 = none) →
      (∀ f, E.moveSan f san2 = none) →
      extractIntendedDestination san1 = extractIntendedDestination san2 →
      score E (input.set i0 san2) solution initialFen = score E input solution initialFen) := by
  constructor
  · intro userSanText sm
    rw [computeFeedback_noparse]
  · intro input solution initialFen i0 san1 san2 hget hs1 hs2 hx
    unfold score
    rw [List.length_set,
      scoreAux_input_subst E solution input i0 san1 san2 hget hs1 hs2 hx
        (max input.length solution.length) 0 initialFen [] true]

/-- C4 witness: a concrete illegal notation whose extracted destination equals
the expected to-square scores yellow, and swapping it for another unparseable
notation with the same extraction leaves the score unchanged. -/
theorem illegal_input_scored_by_extraction_witness :
    computeFeedback none (some "Qxd8")
        (some { fromSq := "a2", toSq := "d8", promotion := none }) = Verdict.yellow ∧
    score stubEngine ["Ke4"] ["a2a3"] "start1" = score stubEngine ["Qe4"] ["a2a3"] "start1" := by
  constructor
  · rw [(illegal_input_scored_by_extraction stubEngine).1 "Qxd8"
      { fromSq := "a2", toSq := "d8", promotion := none }]
    decide
  · have h := (illegal_input_scored_by_extraction stubEngine).2 ["Qe4"] ["a2a3"] "start1" 0
      "Qe4" "Ke4" (by decide) (fun f => rfl) (fun f => rfl) (by decide)
    simpa using h

/-
  C5: an illegal solution move is attempt-local; the fill stops at the
  attempt's length, not at max(len input, len solution).
-/

/-- C5 counterexample: with a one-move attempt against a three-move solution
whose first move is illegal, scoring stops at index 0 and produces exactly one
verdict, so no verdict exists for indices 1 and 2 even though
max(len input, len solution) = 3. -/
theorem scorer_fill_counterexample :
    score stubEngine ["e4"] ["a2a3", "a7a6", "b2b3"] "start2" =
        ScoreResult.ok [Verdict.red] false ∧
    List.length [Verdict.red] <
      max (List.length (["e4"] : List String))
        (List.length (["a2a3", "a7a6", "b2b3"] : List String)) :=
  ⟨by decide, by decide⟩

/-- C5 (amended): when applying the solution's own move is illegal, the
just-computed verdict is forced to incorrect and scoring stops at once; the
produced feedback always covers every index of the player's attempt (unscored
attempt indices are filled with incorrect up to len(input)); and the failure
is attempt-local: the submission still lands in playing or lost, never in the
error state. -/
theorem scorer_break_attempt_local (E : RulesEngine) :
    (∀ (input solution : List String) (k i : Nat) (fen : Fen) (fb : List Verdict) (ac : Bool)
        (u : String) (m : MoveArg),
      truthyString (solution.get? i) = some u →
      parseUci u = some m →
      E.moveObj fen m = none →
      scoreAux E input solution (k + 1) i fen fb ac =
        ScoreResult.ok (fb ++ [Verdict.red]) false) ∧
    (∀ (input solution : List String) (fen : Fen) (fb : List Verdict) (ac : Bool),
      score E input solution fen = ScoreResult.ok fb ac → input.length ≤ fb.length) ∧
    (∀ (s : SessionState) (p : Puzzle) (fb : List Verdict),
      s.puzzle = some p → s.gameState = GameState.playing → ¬s.userMoveSequence = [] →
      ¬(p.initialFen = "" ∨ E.validFen p.initialFen = false) →
      score E s.userMoveSequence p.solution p.initialFen = ScoreResult.ok fb false →
      (handleSubmit E s).gameState =
        (if MAX_ATTEMPTS ≤ s.currentAttemptNumber then GameState.lost
         else GameState.playing)) := by
  refine ⟨?_, ?_, ?_⟩
  · intro input solution k i fen fb ac u m hu hm hmv
    rw [scoreAux, hu]
    dsimp only [Option.bind]
    rw [hm]
    dsimp only
    rw [hmv]
  · intro input solution fen fb ac h
    unfold score at h
    cases hs : scoreAux E input solution (max input.length solution.length) 0 fen [] true with
    | fatal => rw [hs] at h; cases h
    | ok fb0 ac0 =>
      rw [hs] at h
      dsimp only at h
      by_cases hlen : fb0.length < input.length
      · rw [if_pos hlen] at h
        cases h
        simp only [List.length_append, List.length_replicate]
        omega
      · rw [if_neg hlen] at h
        cases h
        omega
  · intro s p fb hp hplay hne hfen hsc
    have hguard : ¬(s.userMoveSequence = [] ∨ s.gameState ≠ GameState.playing) := by
      push_neg
      exact ⟨hne, hplay⟩
    unfold handleSubmit
    rw [hp]
    dsimp only
    rw [if_neg hguard, if_neg hfen, hsc]
    dsimp only
    rw [if_neg (by simp)]
    by_cases hmax : MAX_ATTEMPTS ≤ s.currentAttemptNumber
    · rw [if_pos hmax, if_pos hmax]
    · rw [if_neg hmax, if_neg hmax]

/-- C5 witness: the break step at index 0 of a concrete attempt, and the
resulting submission continuing to the next attempt instead of erroring. -/
theorem scorer_break_attempt_local_witness :
    scoreAux stubEngine ["e4"] ["a2a3"] 1 0 "start3" [] true =
        ScoreResult.ok [Verdict.red] false ∧
    (handleSubmit stubEngine demoBreakState).gameState = GameState.playing := by
  constructor
  · have h := (scorer_break_attempt_local stubEngine).1 ["e4"] ["a2a3"] 0 0 "start3" [] true
      "a2a3" { fromSq := "a2", toSq := "a3", promotion := none } (by decide) (by decide) rfl
    simpa using h
  · have h := (scorer_break_attempt_local stubEngine).2.2 demoBreakState demoBreakPuzzle
      [Verdict.red] rfl rfl (by decide) (by decide) (by decide)
    simpa using h

/-
  C6: a malformed solution entry is fatal.
-/

/-- C6: a solution entry inside the solution that fails UCI parsing makes the
scoring pass return the fatal result as soon as its index is reached, and a
fatal scoring result sends the session to the error state with the attempt
history unchanged: no attempt record is appended. -/
theorem malformed_solution_fatal (E : RulesEngine) :
    (∀ (input solution : List String) (k i : Nat) (fen : Fen) (fb : List Verdict) (ac : Bool),
      (truthyString (solution.get? i)).bind parseUci = none →
      i < solution.length →
      scoreAux E input solution (k + 1) i fen fb ac = ScoreResult.fatal) ∧
    (∀ (s : SessionState) (p : Puzzle),
      s.puzzle = some p → s.gameState = GameState.playing → ¬s.userMoveSequence = [] →
      ¬(p.initialFen = "" ∨ E.validFen p.initialFen = false) →
      score E s.userMoveSequence p.solution p.initialFen = ScoreResult.fatal →
      ((handleSubmit E s).gameState = GameState.error ∧
        (handleSubmit E s).attemptsHistory = s.attemptsHistory)) := by
  constructor
  · intro input solution k i fen fb ac hbad hlt
    rw [scoreAux]
    cases hsol : truthyString (solution.get? i) with
    | none =>
      dsimp only [Option.bind]
      rw [if_pos hlt]
    | some u =>
      rw [hsol] at hbad
      dsimp only [Option.bind] at hbad ⊢
      rw [hbad]
      dsimp only
      rw [if_pos hlt]
  · intro s p hp hplay hne hfen hsc
    have hguard : ¬(s.userMoveSequence = [] ∨ s.gameState ≠ GameState.playing) := by
      push_neg
      exact ⟨hne, hplay⟩
    unfold handleSubmit
    rw [hp]
    dsimp only
    rw [if_neg hguard, if_neg hfen, hsc]
    exact ⟨rfl, rfl⟩

/-- C6 witness: a concrete malformed solution entry is fatal at index 0, and
submitting against it errors the session without touching the history. -/
theorem malformed_solution_fatal_witness :
    scoreAux stubEngine ["e4"] ["zz9x"] 1 0 "start4" [] true = ScoreResult.fatal ∧
    ((handleSubmit stubEngine demoFatalState).gameState = GameState.error ∧
      (handleSubmit stubEngine demoFatalState).attemptsHistory =
        demoFatalState.attemptsHistory) :=
  ⟨(malformed_solution_fatal stubEngine).1 ["e4"] ["zz9x"] 0 0 "start4" [] true
      (by decide) (by decide),
   (malformed_solution_fatal stubEngine).2 demoFatalState demoFatalPuzzle rfl rfl
      (by decide) (by decide) (by decide)⟩

/-
  C7: strictness of contextual parsing.
-/

/-- C7: parseSanMove fails exactly when the rules engine rejects the notation
for that position (illegal moves, wrong-turn moves and malformed text all come
back as the engine's failure), and on success it returns precisely the
engine's move descriptor, guessing nothing. -/
theorem parseSanMove_strict (E : RulesEngine) (fen : Fen) (san : String) :
    (parseSanMove E fen san = none ↔ E.moveSan fen san = none) ∧
    parseSanMove E fen san =
      Option.map
        (fun (r : MoveDetails × Fen) =>
          ({ piece := r.1.piece, fromSq := r.1.fromSq, toSq := r.1.toSq, san := r.1.san,
             color := r.1.color, promotion := r.1.promotion } : MoveDetails))
        (E.moveSan fen san) := by
  unfold parseSanMove
  cases h : E.moveSan fen san with
  | none => simp
  | some r => cases r with | mk d f2 => simp

/-
  C8: the session invariant.
-/

/-- C8: the freshly initialized session satisfies the invariant
len(history) + 1 = attemptNumber while playing together with
attemptNumber ≤ MAX_ATTEMPTS, and every transition of the state machine
(handleSubmit, handleResetInput, onDrop) preserves it. -/
theorem session_invariant_preserved :
    (∀ p : Puzzle, SessionInv (initSession p)) ∧
    (∀ (E : RulesEngine) (s : SessionState), SessionInv s → SessionInv (handleSubmit E s)) ∧
    (∀ s : SessionState, SessionInv s → SessionInv (handleResetInput s)) ∧
    (∀ (E : RulesEngine) (s : SessionState) (a b : String),
      SessionInv s → SessionInv (onDrop E s a b)) := by
  refine ⟨?_, ?_, ?_, ?_⟩
  · intro p
    refine ⟨fun _ => rfl, ?_⟩
    show 1 ≤ 5
    omega
  · intro E s hInv
    unfold handleSubmit
    cases hp : s.puzzle with
    | none => exact hInv
    | some p =>
      dsimp only
      by_cases hguard : s.userMoveSequence = [] ∨ s.gameState ≠ GameState.playing
      · rw [if_pos hguard]; exact hInv
      · rw [if_neg hguard]
        push_neg at hguard
        obtain ⟨hne, hplay⟩ := hguard
        by_cases hfen : p.initialFen = "" ∨ E.validFen p.initialFen = false
        · rw [if_pos hfen]
          exact ⟨fun h => by simp at h, hInv.2⟩
        · rw [if_neg hfen]
          cases hsc : score E s.userMoveSequence p.solution p.initialFen with
          | fatal => exact ⟨fun h => by simp at h, hInv.2⟩
          | ok fb ac =>
            dsimp only
            by_cases hwin : ac = true ∧ s.userMoveSequence.length = p.solution.length
            · rw [if_pos hwin]
              exact ⟨fun h => by simp at h, hInv.2⟩
            · rw [if_neg hwin]
              by_cases hmax : MAX_ATTEMPTS ≤ s.currentAttemptNumber
              · rw [if_pos hmax]
                exact ⟨fun h => by simp at h, hInv.2⟩
              · rw [if_neg hmax]
                have hlen := hInv.1 hplay
                refine ⟨fun _ => ?_, ?_⟩
                · simp only [List.length_append, List.length_singleton]
                  omega
                · simp only [MAX_ATTEMPTS] at hmax ⊢
                  omega
  · intro s hInv
    unfold handleResetInput
    cases hp : s.puzzle with
    | none => exact hInv
    | some p =>
      dsimp only
      by_cases hg : s.gameState ≠ GameState.playing
      · rw [if_pos hg]; exact hInv
      · rw [if_neg hg]
        exact ⟨hInv.1, hInv.2⟩
  · intro E s a b hInv
    unfold onDrop
    by_cases hg : s.gameState ≠ GameState.playing ∨ s.puzzle = none
    · rw [if_pos hg]; exact hInv
    · rw [if_neg hg]
      dsimp only
      cases hmv : E.moveObj s.currentFen
          { fromSq := a, toSq := b, promotion := some 'q' } with
      | none => exact hInv
      | some r =>
        cases r with
        | mk d newFen =>
          dsimp only
          exact ⟨hInv.1, hInv.2⟩

/-- C8 witness: the invariant holds of the demo initial state and survives a
concrete submission. -/
theorem session_invariant_preserved_witness :
    SessionInv (initSession demoPuzzle) ∧ SessionInv (handleSubmit demoEngine demoState) :=
  ⟨session_invariant_preserved.1 demoPuzzle,
   session_invariant_preserved.2.1 demoEngine demoState ⟨fun _ => rfl, by decide⟩⟩

/-
  C9: terminal states and attempt exhaustion.
-/

/-- C9: once the session is won or lost every handler is a no-op (the whole
state, in particular currentAttemptInput and history, is unchanged); and a
submission scored on the final allowed attempt never leaves the session
playing: it is won, or lost whenever the attempt did not win. -/
theorem terminal_states_and_exhaustion :
    (∀ (E : RulesEngine) (s : SessionState) (a b : String),
      s.gameState = GameState.won ∨ s.gameState = GameState.lost →
      handleSubmit E s = s ∧ handleResetInput s = s ∧ onDrop E s a b = s) ∧
    (∀ (E : RulesEngine) (s : SessionState) (p : Puzzle) (fb : List Verdict) (ac : Bool),
      s.gameState = GameState.playing → s.puzzle = some p → ¬s.userMoveSequence = [] →
      s.currentAttemptNumber = MAX_ATTEMPTS →
      ¬(p.initialFen = "" ∨ E.validFen p.initialFen = false) →
      score E s.userMoveSequence p.solution p.initialFen = ScoreResult.ok fb ac →
      ((handleSubmit E s).gameState ≠ GameState.playing ∧
        (¬(ac = true ∧ s.userMoveSequence.length = p.solution.length) →
          (handleSubmit E s).gameState = GameState.lost))) := by
  constructor
  · intro E s a b hterminal
    have hnp : s.gameState ≠ GameState.playing := by
      rcases hterminal with h | h <;> rw [h] <;> intro hc <;> cases hc
    refine ⟨?_, ?_, ?_⟩
    · unfold handleSubmit
      cases s.puzzle with
      | none => rfl
      | some p =>
        dsimp only
        rw [if_pos (Or.inr hnp)]
    · unfold handleResetInput
      cases s.puzzle with
      | none => rfl
      | some p =>
        dsimp only
        rw [if_pos hnp]
    · unfold onDrop
      rw [if_pos (Or.inl hnp)]
  · intro E s p fb ac hplay hp hne hmax hfen hsc
    have hguard : ¬(s.userMoveSequence = [] ∨ s.gameState ≠ GameState.playing) := by
      push_neg
      exact ⟨hne, hplay⟩
    unfold handleSubmit
    rw [hp]
    dsimp only
    rw [if_neg hguard, if_neg hfen, hsc]
    dsimp only
    by_cases hwin : ac = true ∧ s.userMoveSequence.length = p.solution.length
    · rw [if_pos hwin]
      exact ⟨(fun hc => by cases hc), (fun hnw => absurd hwin hnw)⟩
    · rw [if_neg hwin, if_pos (by omega)]
      exact ⟨(fun hc => by cases hc), (fun _ => rfl)⟩

/-- C9 witness: a concrete won state is frozen by all three handlers, and a
concrete non-winning submission on attempt 5 loses the game. -/
theorem terminal_states_and_exhaustion_witness :
    (handleSubmit stubEngine wonDemoState = wonDemoState ∧
      handleResetInput wonDemoState = wonDemoState ∧
      onDrop stubEngine wonDemoState "e2" "e4" = wonDemoState) ∧
    (handleSubmit stubEngine exhaustDemoState).gameState = GameState.lost :=
  ⟨terminal_states_and_exhaustion.1 stubEngine wonDemoState "e2" "e4" (Or.inl rfl),
   (terminal_states_and_exhaustion.2 stubEngine exhaustDemoState demoBreakPuzzle
      [Verdict.red] false rfl rfl (by decide) rfl (by decide) (by decide)).2 (by decide)⟩

/-
  C10: dragging always promotes to queen.
-/

/-- C10: onDrop consults the engine only with the promotion field hard-coded
to queen (two engines agreeing on queen-promotion arguments make onDrop
behave identically), and a parsed user move whose promotion is absent or
queen can never be scored correct against a solution move promoting to rook,
bishop or knight. -/
theorem onDrop_queen_promotion_only :
    (∀ (E1 E2 : RulesEngine) (s : SessionState) (a b : String),
      (∀ (fen : Fen) (arg : MoveArg), arg.promotion = some 'q' →
        E1.moveObj fen arg = E2.moveObj fen arg) →
      onDrop E1 s a b = onDrop E2 s a b) ∧
    (∀ (u : MoveDetails) (userSan : Option String) (sm : MoveArg) (c : Char),
      u.promotion = none ∨ u.promotion = some 'q' →
      sm.promotion = some c →
      c = 'r' ∨ c = 'b' ∨ c = 'n' →
      computeFeedback (some u) userSan (some sm) ≠ Verdict.green) := by
  constructor
  · intro E1 E2 s a b hEq
    unfold onDrop
    by_cases hg : s.gameState ≠ GameState.playing ∨ s.puzzle = none
    · rw [if_pos hg, if_pos hg]
    · rw [if_neg hg, if_neg hg]
      dsimp only
      rw [hEq s.currentFen { fromSq := a, toSq := b, promotion := some 'q' } rfl]
  · intro u userSan sm c hu hsm hc hgreen
    simp only [computeFeedback] at hgreen
    split_ifs at hgreen with h1 h2
    · have hpromo := h1.2.2
      rw [hsm] at hpromo
      rcases hu with h | h
      · rw [h] at hpromo
        cases hpromo
      · rw [h] at hpromo
        have hqc : 'q' = c := Option.some.inj hpromo
        rcases hc with rfl | rfl | rfl <;> exact absurd hqc (by decide)

/-- C10 witness: onDrop cannot tell the stub engine from one that differs only
on under-promotions, and a concrete queen-promoting user move scored against a
rook-promoting solution move is not correct. -/
theorem onDrop_queen_promotion_only_witness :
    onDrop stubEngine demoState "e2" "e4" = onDrop underPromoEngine demoState "e2" "e4" ∧
    computeFeedback
        (some { piece := 'p', fromSq := "a7", toSq := "a8", san := "a8=Q", color := 'w',
                promotion := some 'q' })
        none
        (some { fromSq := "a7", toSq := "a8", promotion := some 'r' }) ≠ Verdict.green :=
  ⟨onDrop_queen_promotion_only.1 stubEngine underPromoEngine demoState "e2" "e4"
      (fun fen arg h => by simp [stubEngine, underPromoEngine, h]),
   onDrop_queen_promotion_only.2
      { piece := 'p', fromSq := "a7", toSq := "a8", san := "a8=Q", color := 'w',
        promotion := some 'q' }
      none
      { fromSq := "a7", toSq := "a8", promotion := some 'r' }
      'r' (Or.inr rfl) rfl (Or.inl rfl)⟩

end Chessdle
